import Mathlib

/-!
Shallow embedding of the krust parallel SSH command executor
(src/main.rs and src/ssh_executor.rs) and proofs about its
host resolution, credential resolution, retry supervisor and
exit-code aggregation.

Strings are modelled as Lean `String`; the string operations the
source uses (`split(':')`, `trim`, `to_lowercase`, `contains`,
`lines`) are embedded as structurally recursive functions over the
underlying character list so that concrete instances evaluate in the
kernel.  Remote exit codes (Rust `i32`) are modelled as `Int`; ports
(Rust `u16`) as `Nat` bounded by the parser.  Wall-clock fields of
`HostResult` (`timestamp`, `duration_ms`) are real-time measurements
and are omitted from the embedded record.
-/

namespace Krust

/-- Splits a character list at every occurrence of `c`, mirroring Rust
`str::split(c)`: the empty string yields one empty part, and a
trailing separator yields a trailing empty part. -/
def splitChar (c : Char) : List Char → List (List Char)
  | [] => [[]]
  | a :: rest =>
    match splitChar c rest with
    | [] => [[a]]
    | h :: t => if a == c then [] :: h :: t else (a :: h) :: t

/-- Removes leading and trailing whitespace, mirroring Rust `str::trim`. -/
def trimChars (l : List Char) : List Char :=
  ((l.dropWhile Char.isWhitespace).reverse.dropWhile Char.isWhitespace).reverse

/-- String wrapper for `trimChars`. -/
def strTrim (s : String) : String := ⟨trimChars s.data⟩

/-- Splits a string on `:`, mirroring `target.split(':')` in
`SshHost::from_target`. -/
def splitOnColon (s : String) : List String :=
  (splitChar ':' s.data).map fun l => ⟨l⟩

/-- Per-character lowercasing, modelling Rust `str::to_lowercase` (the
two agree on the ASCII error messages the retry classifier inspects). -/
def lowerStr (s : String) : String := ⟨s.data.map Char.toLower⟩

/-- Tests whether `pat` occurs at the head of `s`. -/
def segStartsWith : List Char → List Char → Bool
  | [], _ => true
  | _ :: _, [] => false
  | p :: ps, c :: cs => p == c && segStartsWith ps cs

/-- Tests whether `pat` occurs as a contiguous segment of `s`,
modelling Rust `str::contains(pat)` for a nonempty pattern. -/
def containsSeg (s pat : List Char) : Bool :=
  segStartsWith pat s ||
    match s with
    | [] => false
    | _ :: rest => containsSeg rest pat

/-- Substring test on strings, modelling `str::contains(&str)`. -/
def strContainsSub (s pat : String) : Bool := containsSeg s.data pat.data

/-- Character membership test, modelling Rust `str::contains(char)`. -/
def strContainsChar (s : String) (c : Char) : Bool := s.data.contains c

/-- Drops a single trailing carriage return, as Rust `str::lines` does
on each line. -/
def dropTrailingCR (l : List Char) : List Char :=
  match l.getLast? with
  | some '\r' => l.dropLast
  | _ => l

/-- Mirrors Rust `str::lines()`: split at `'\n'`, drop the final empty
segment produced by a trailing newline (so the empty string has no
lines), and strip one trailing `'\r'` from each line. -/
def rustLines (s : String) : List String :=
  let parts := splitChar '\n' s.data
  let parts :=
    match parts.getLast? with
    | some [] => parts.dropLast
    | _ => parts
  parts.map fun l => ⟨dropTrailingCR l⟩

/-- Value of a nonempty all-digit character list, `none` otherwise;
the accumulator step mirrors positional decimal parsing. -/
def digitsVal (cs : List Char) : Option Nat :=
  if cs.isEmpty then none
  else
    cs.foldl
      (fun acc c =>
        match acc with
        | none => none
        | some v => if c.isDigit then some (v * 10 + (c.toNat - 48)) else none)
      (some 0)

/-- Models Rust `u16::from_str` as used by `p.parse::<u16>().ok()`:
an optional leading `+`, then one or more ASCII digits, value at most
`65535`; anything else is `none`. -/
def parseU16 (s : String) : Option Nat :=
  let cs := match s.data with
    | '+' :: rest => rest
    | l => l
  match digitsVal cs with
  | some v => if v ≤ 65535 then some v else none
  | none => none

/-- Canonical identity of a target host, from `ssh_executor.rs`
(`pub struct SshHost { hostname: String, port: u16 }`). -/
structure SshHost where
  hostname : String
  port : Nat
deriving DecidableEq, Repr

instance : Inhabited SshHost := ⟨⟨"", 0⟩⟩

/-- Embedding of `SshHost::from_target`: split the target on `:`, trim
the first part as hostname (error when empty), take the port from the
second part when it parses as a `u16`, otherwise from `default_port`,
otherwise `22`; a resulting port of `0` is an error. -/
def SshHost.from_target (target : String) (default_port : Option Nat) :
    Except String SshHost :=
  let parts := splitOnColon target
  let hostname := strTrim (parts.headD "")
  if hostname = "" then .error "Empty hostname"
  else
    let port := (((parts[1]?).bind parseU16).or default_port).getD 22
    if port = 0 then .error "Invalid port: 0"
    else .ok ⟨hostname, port⟩

/-- Derived `Ord` on `SshHost` in the source is lexicographic by field
order: hostname (Rust `String` order, i.e. lexicographic over the
character sequence) then port.  This is the corresponding `≤`. -/
def hostLeP (a b : SshHost) : Prop :=
  a.hostname.data < b.hostname.data ∨
    (a.hostname.data = b.hostname.data ∧ a.port ≤ b.port)

instance : DecidableRel hostLeP := fun a b => by
  unfold hostLeP; infer_instance

instance : IsTotal SshHost hostLeP where
  total a b := by
    rcases lt_trichotomy a.hostname.data b.hostname.data with h | h | h
    · exact Or.inl (Or.inl h)
    · rcases Nat.le_total a.port b.port with hp | hp
      · exact Or.inl (Or.inr ⟨h, hp⟩)
      · exact Or.inr (Or.inr ⟨h.symm, hp⟩)
    · exact Or.inr (Or.inl h)

instance : IsTrans SshHost hostLeP where
  trans a b c hab hbc := by
    rcases hab with h1 | ⟨h1, p1⟩ <;> rcases hbc with h2 | ⟨h2, p2⟩
    · exact Or.inl (lt_trans h1 h2)
    · exact Or.inl (h2 ▸ h1)
    · exact Or.inl (h1 ▸ h2)
    · exact Or.inr ⟨h1.trans h2, le_trans p1 p2⟩

theorem string_data_eq {s t : String} (h : s.data = t.data) : s = t := by
  cases s; cases t; cases h; rfl

instance : IsAntisymm SshHost hostLeP where
  antisymm a b hab hba := by
    rcases hab with h1 | ⟨h1, p1⟩ <;> rcases hba with h2 | ⟨h2, p2⟩
    · exact absurd h2 (lt_asymm h1)
    · exact absurd h1 (h2 ▸ lt_irrefl _)
    · exact absurd h2 (h1 ▸ lt_irrefl _)
    · have hh : a.hostname = b.hostname := string_data_eq h1
      have hp : a.port = b.port := le_antisymm p1 p2
      cases a; cases b; simp_all

/-- Embedding of `hosts.sort()` on the derived order: any sorting
algorithm for this total antisymmetric order produces the same list,
so the Rust stable sort is modelled by insertion sort. -/
def sortHosts (l : List SshHost) : List SshHost := l.insertionSort hostLeP

/-- Embedding of `Vec::dedup`: removes consecutive equal elements. -/
def dedupAdjacent : List SshHost → List SshHost
  | [] => []
  | [a] => [a]
  | a :: b :: rest =>
    if a = b then dedupAdjacent (b :: rest) else a :: dedupAdjacent (b :: rest)

/-- Host list resolution as in `main`: parse every raw spec with
`SshHost::from_target(spec, None)` (the first parse error fails the
run), then `hosts.sort(); hosts.dedup();`. -/
def resolveHosts (specs : List String) : Except String (List SshHost) := do
  let parsed ← specs.mapM fun s => SshHost.from_target s none
  return dedupAdjacent (sortHosts parsed)

/-- Authentication method variants from `ssh_executor.rs`
(`enum AuthMethod { Password, KeyFile, Agent }`); the `Zeroizing`
wrapper and `PathBuf` are modelled as plain strings. -/
inductive AuthMethod
  | Password (secret : String)
  | KeyFile (path : String)
  | Agent
deriving DecidableEq, Repr

/-- Resolved credentials, from `pub struct SshAuth`. -/
structure SshAuth where
  user : String
  method : AuthMethod
deriving DecidableEq, Repr

/-- Default key locations probed by `SshAuth::new`, in source order
(RSA, then Ed25519, then ECDSA under the home directory); an absent
home directory yields no candidates. -/
def default_key_paths (home : Option String) : List String :=
  match home with
  | none => []
  | some h => [h ++ "/.ssh/id_rsa", h ++ "/.ssh/id_ed25519", h ++ "/.ssh/id_ecdsa"]

/-- Embedding of `SshAuth::new`.  The filesystem probe
`key_path.exists()` is abstracted as the oracle `fileExists`, and the
home directory lookup as the `home` argument.  The branch structure is
the source's: explicit key file first; else the agent when
`use_agent` holds and no password was given; else an explicit
password; else the first existing default key; else the agent. -/
def SshAuth.new (user : String) (password : Option String)
    (key_file : Option String) (use_agent : Bool)
    (home : Option String) (fileExists : String → Bool) : SshAuth :=
  match key_file with
  | some key => ⟨user, .KeyFile key⟩
  | none =>
    if use_agent && password.isNone then ⟨user, .Agent⟩
    else
      match password with
      | some pw => ⟨user, .Password pw⟩
      | none =>
        match (default_key_paths home).find? fileExists with
        | some p => ⟨user, .KeyFile p⟩
        | none => ⟨user, .Agent⟩

/-- Outcome of one iteration of the retry loop in
`execute_with_retries`, as seen by the `match` on
`timeout(…, spawn_blocking(execute_command_on_host)).await`:
`completed` is `Ok(Ok(Ok((output, exit_code))))`, `execError` is
`Ok(Ok(Err(e)))` with `e.to_string()`, `panicked` is `Ok(Err(e))`
(the spawned task failed), and `timedOut` is `Err(_)` (the hard
per-attempt timeout expired). -/
inductive AttemptResult
  | completed (output : String) (exitCode : Int)
  | execError (msg : String)
  | panicked (msg : String)
  | timedOut
deriving DecidableEq, Repr

/-- Retry classifier from `execute_with_retries`: the loop continues
for errors whose lowercased text contains `connection`, `timeout`,
`network` or `handshake`, and breaks otherwise. -/
def is_retryable_error (msg : String) : Bool :=
  let low := lowerStr msg
  strContainsSub low "connection" || strContainsSub low "timeout" ||
    strContainsSub low "network" || strContainsSub low "handshake"

/-- Externally visible per-host record from `main.rs`
(`struct HostResult`), without the wall-clock `timestamp` and
`duration_ms` fields. -/
structure HostResult where
  hostname : String
  success : Bool
  stdout : Option String
  stdout_lines : Option (List String)
  stderr : Option String
  exit_code : Option Int
deriving DecidableEq, Repr

/-- The `HostResult` built on `Ok(Ok(Ok((output, exit_code))))`:
`success` iff the remote exit code is `0`, `stdout_lines` populated
only when the output contains a newline, `stderr` empty. -/
def completedResult (hostname output : String) (exitCode : Int) : HostResult :=
  { hostname := hostname
    success := decide (exitCode = 0)
    stdout := some output
    stdout_lines :=
      if strContainsChar output '\n' then some (rustLines output) else none
    stderr := none
    exit_code := some exitCode }

/-- The `HostResult` built after the loop ends without a completed
attempt: failure with the last recorded error message and no exit
code. -/
def failResult (hostname : String) (lastError : Option String) : HostResult :=
  { hostname := hostname
    success := false
    stdout := none
    stdout_lines := none
    stderr := lastError
    exit_code := none }

/-- The retry loop of `execute_with_retries`.  `att i` is the outcome
of attempt number `i` (the behaviour of the executor on that try),
`fuel` the number of loop iterations remaining (`max_retries + 1 -
idx` initially), and `lastError` the `last_error` variable.  The
backoff sleep has no observable effect in this model and is elided. -/
def retryLoop (hostname : String) (att : Nat → AttemptResult) :
    Nat → Nat → Option String → HostResult
  | _, 0, lastError => failResult hostname lastError
  | idx, fuel + 1, _lastError =>
    match att idx with
    | .completed out code => completedResult hostname out code
    | .execError msg =>
      if is_retryable_error msg then
        retryLoop hostname att (idx + 1) fuel (some msg)
      else failResult hostname (some msg)
    | .panicked msg => failResult hostname (some ("Task panic: " ++ msg))
    | .timedOut => retryLoop hostname att (idx + 1) fuel (some "Command timeout")

/-- Embedding of `execute_with_retries`: the `for attempt in
0..=max_retries` loop makes at most `max_retries + 1` attempts. -/
def execute_with_retries (hostname : String) (att : Nat → AttemptResult)
    (max_retries : Nat) : HostResult :=
  retryLoop hostname att 0 (max_retries + 1) none

/-- Number of loop iterations `retryLoop` actually performs from
attempt `idx` with `fuel` iterations allowed. -/
def attemptsUsed (att : Nat → AttemptResult) : Nat → Nat → Nat
  | _, 0 => 0
  | idx, fuel + 1 =>
    match att idx with
    | .completed _ _ => 1
    | .execError msg =>
      if is_retryable_error msg then 1 + attemptsUsed att (idx + 1) fuel else 1
    | .panicked _ => 1
    | .timedOut => 1 + attemptsUsed att (idx + 1) fuel

/-- The error message an attempt leaves in `last_error` when it does
not complete (unused for completed attempts). -/
def attemptFailMsg : AttemptResult → String
  | .completed _ _ => ""
  | .execError m => m
  | .panicked m => "Task panic: " ++ m
  | .timedOut => "Command timeout"

/-- The `failed_count` accumulator of `run_parallel`: number of
results with `success == false`. -/
def countFailed (results : List HostResult) : Nat :=
  results.countP fun r => !r.success

/-- The exit code computed at the end of `run_parallel` and passed to
`std::process::exit` in `main`: `1` if any host failed, else `0`. -/
def run_exit_code (results : List HostResult) : Nat :=
  if countFailed results > 0 then 1 else 0

/-- Strict companion of `hostLeP`, used to state that the resolved
host list has no duplicates. -/
def hostLtP (a b : SshHost) : Prop := hostLeP a b ∧ a ≠ b

instance : IsIrrefl SshHost hostLtP where
  irrefl _ h := h.2 rfl

/-- Total parse function used to describe the value `mapM` produces
when every spec parses. -/
def parseHost (s : String) : SshHost :=
  ((SshHost.from_target s none).toOption).getD default

theorem from_target_isOk_eq {s : String}
    (h : (SshHost.from_target s none).isOk = true) :
    SshHost.from_target s none = .ok (parseHost s) := by
  cases hf : SshHost.from_target s none with
  | error e => rw [hf] at h; simp [Except.isOk, Except.toBool] at h
  | ok v => simp [parseHost, hf, Except.toOption]

theorem mapM_from_target_ok :
    ∀ l : List String, (∀ s ∈ l, (SshHost.from_target s none).isOk = true) →
      l.mapM (fun s => SshHost.from_target s none) = .ok (l.map parseHost)
  | [], _ => rfl
  | a :: t, h => by
    rw [List.mapM_cons, from_target_isOk_eq (h a (List.mem_cons_self a t)),
      mapM_from_target_ok t (fun s hs => h s (List.mem_cons_of_mem a hs))]
    rfl

theorem resolveHosts_eq_of_all_ok (l : List String)
    (h : ∀ s ∈ l, (SshHost.from_target s none).isOk = true) :
    resolveHosts l = .ok (dedupAdjacent (sortHosts (l.map parseHost))) := by
  unfold resolveHosts
  rw [mapM_from_target_ok l h]
  rfl

theorem sortHosts_perm_eq {l1 l2 : List SshHost} (h : l1.Perm l2) :
    sortHosts l1 = sortHosts l2 := by
  refine List.eq_of_perm_of_sorted ?_ (List.sorted_insertionSort hostLeP l1)
    (List.sorted_insertionSort hostLeP l2)
  exact ((List.perm_insertionSort hostLeP l1).trans h).trans
    (List.perm_insertionSort hostLeP l2).symm

theorem mem_dedupAdjacent :
    ∀ (l : List SshHost) (x : SshHost), x ∈ dedupAdjacent l → x ∈ l
  | [], x, h => by simp [dedupAdjacent] at h
  | [a], x, h => by simpa [dedupAdjacent] using h
  | a :: b :: rest, x, h => by
    by_cases hab : a = b
    · simp only [dedupAdjacent, if_pos hab] at h
      exact List.mem_cons_of_mem _ (mem_dedupAdjacent (b :: rest) x h)
    · simp only [dedupAdjacent, if_neg hab] at h
      rcases List.mem_cons.mp h with h | h
      · exact h ▸ List.mem_cons_self _ _
      · exact List.mem_cons_of_mem _ (mem_dedupAdjacent (b :: rest) x h)

theorem dedupAdjacent_sorted :
    ∀ l : List SshHost, l.Sorted hostLeP → (dedupAdjacent l).Sorted hostLtP
  | [], _ => by simp [dedupAdjacent]
  | [a], _ => by simp [dedupAdjacent]
  | a :: b :: rest, h => by
    have htail : (b :: rest).Sorted hostLeP := h.of_cons
    have hle : ∀ x ∈ b :: rest, hostLeP a x := (List.sorted_cons.mp h).1
    by_cases hab : a = b
    · simp only [dedupAdjacent, if_pos hab]
      exact dedupAdjacent_sorted (b :: rest) htail
    · simp only [dedupAdjacent, if_neg hab]
      refine List.sorted_cons.mpr ⟨?_, dedupAdjacent_sorted (b :: rest) htail⟩
      intro x hx
      have hxmem := mem_dedupAdjacent _ _ hx
      refine ⟨hle x hxmem, ?_⟩
      intro heq
      rcases List.mem_cons.mp hxmem with hxb | hxr
      · exact hab (heq.trans hxb)
      · have hbx : hostLeP b x := (List.sorted_cons.mp htail).1 x hxr
        have hab' : hostLeP a b := hle b (List.mem_cons_self _ _)
        have hba : hostLeP b a := heq ▸ hbx
        exact hab (antisymm hab' hba)

theorem attemptsUsed_pos (att : Nat → AttemptResult) :
    ∀ (fuel idx : Nat), 0 < fuel → 1 ≤ attemptsUsed att idx fuel
  | 0, _ => fun h => absurd h (lt_irrefl 0)
  | fuel + 1, idx => fun _ => by
    cases hatt : att idx <;> simp only [attemptsUsed, hatt] <;> first
      | omega
      | (split <;> omega)

theorem attemptsUsed_le (att : Nat → AttemptResult) :
    ∀ (fuel idx : Nat), attemptsUsed att idx fuel ≤ fuel
  | 0, _ => le_refl 0
  | fuel + 1, idx => by
    have := attemptsUsed_le att fuel (idx + 1)
    cases hatt : att idx <;> simp only [attemptsUsed, hatt] <;> first
      | omega
      | (split <;> omega)

theorem retryLoop_fields (host : String) (att : Nat → AttemptResult) :
    ∀ (fuel idx : Nat) (err : Option String),
      (∀ c, (retryLoop host att idx fuel err).exit_code = some c →
        ((retryLoop host att idx fuel err).success = decide (c = 0) ∧
          (retryLoop host att idx fuel err).stderr = none ∧
          ∃ out, (retryLoop host att idx fuel err).stdout = some out)) ∧
      (∀ out, (retryLoop host att idx fuel err).stdout = some out →
        (retryLoop host att idx fuel err).stdout_lines =
          (if strContainsChar out '\n' then some (rustLines out) else none)) ∧
      ((retryLoop host att idx fuel err).exit_code = none →
        ((retryLoop host att idx fuel err).stdout = none ∧
          (retryLoop host att idx fuel err).stdout_lines = none ∧
          (retryLoop host att idx fuel err).success = false))
  | 0, idx, err => by simp [retryLoop, failResult]
  | fuel + 1, idx, err => by
    cases hatt : att idx with
    | completed out code =>
      refine ⟨?_, ?_, ?_⟩ <;> simp only [retryLoop, hatt, completedResult]
      · intro c hc; cases hc; simp
      · intro o ho; cases ho; rfl
      · intro hc; exact Option.noConfusion hc
    | execError msg =>
      by_cases hr : is_retryable_error msg
      · simpa only [retryLoop, hatt, hr, if_true] using
          retryLoop_fields host att fuel (idx + 1) (some msg)
      · simp [retryLoop, hatt, hr, failResult]
    | panicked msg => simp [retryLoop, hatt, failResult]
    | timedOut =>
      simpa only [retryLoop, hatt] using
        retryLoop_fields host att fuel (idx + 1) (some "Command timeout")

theorem attemptsUsed_step_retryErr {att : Nat → AttemptResult} {idx : Nat}
    {msg : String} (hatt : att idx = .execError msg)
    (hr : is_retryable_error msg = true) (fuel : Nat) :
    attemptsUsed att idx (fuel + 1) = 1 + attemptsUsed att (idx + 1) fuel := by
  simp only [attemptsUsed, hatt, hr, if_true]

theorem attemptsUsed_step_timeout {att : Nat → AttemptResult} {idx : Nat}
    (hatt : att idx = .timedOut) (fuel : Nat) :
    attemptsUsed att idx (fuel + 1) = 1 + attemptsUsed att (idx + 1) fuel := by
  simp only [attemptsUsed, hatt]

theorem attemptsUsed_step_fatalErr {att : Nat → AttemptResult} {idx : Nat}
    {msg : String} (hatt : att idx = .execError msg)
    (hr : is_retryable_error msg = false) (fuel : Nat) :
    attemptsUsed att idx (fuel + 1) = 1 := by
  simp [attemptsUsed, hatt, hr]

theorem attemptsUsed_step_completed {att : Nat → AttemptResult} {idx : Nat}
    {out : String} {code : Int} (hatt : att idx = .completed out code)
    (fuel : Nat) : attemptsUsed att idx (fuel + 1) = 1 := by
  simp [attemptsUsed, hatt]

theorem attemptsUsed_step_panicked {att : Nat → AttemptResult} {idx : Nat}
    {msg : String} (hatt : att idx = .panicked msg) (fuel : Nat) :
    attemptsUsed att idx (fuel + 1) = 1 := by
  simp [attemptsUsed, hatt]

theorem retryLoop_step_retryErr (host : String) {att : Nat → AttemptResult}
    {idx : Nat} {msg : String} (hatt : att idx = .execError msg)
    (hr : is_retryable_error msg = true) (fuel : Nat) (err : Option String) :
    retryLoop host att idx (fuel + 1) err =
      retryLoop host att (idx + 1) fuel (some msg) := by
  simp only [retryLoop, hatt, hr, if_true]

theorem retryLoop_step_timeout (host : String) {att : Nat → AttemptResult}
    {idx : Nat} (hatt : att idx = .timedOut) (fuel : Nat) (err : Option String) :
    retryLoop host att idx (fuel + 1) err =
      retryLoop host att (idx + 1) fuel (some "Command timeout") := by
  simp only [retryLoop, hatt]

theorem retryLoop_all_fail (host : String) (att : Nat → AttemptResult)
    (h : ∀ i out c, att i ≠ .completed out c) :
    ∀ (fuel idx : Nat) (err : Option String), 0 < fuel →
      retryLoop host att idx fuel err =
        failResult host
          (some (attemptFailMsg (att (idx + attemptsUsed att idx fuel - 1))))
  | 0, _, _ => fun hf => absurd hf (lt_irrefl 0)
  | fuel + 1, idx, err => fun _ => by
    cases hatt : att idx with
    | completed out code => exact absurd hatt (h idx out code)
    | execError msg =>
      by_cases hr : is_retryable_error msg
      · cases fuel with
        | zero =>
          simp [retryLoop, attemptsUsed, hatt, hr, attemptFailMsg]
        | succ f =>
          have hrec := retryLoop_all_fail host att h (f + 1) (idx + 1)
            (some msg) (Nat.succ_pos f)
          have hpos := attemptsUsed_pos att (f + 1) (idx + 1) (Nat.succ_pos f)
          rw [retryLoop_step_retryErr host hatt hr, hrec,
            attemptsUsed_step_retryErr hatt hr]
          have harith : idx + (1 + attemptsUsed att (idx + 1) (f + 1)) - 1 =
              idx + 1 + attemptsUsed att (idx + 1) (f + 1) - 1 := by omega
          rw [harith]
      · simp [retryLoop, attemptsUsed, hatt, hr, attemptFailMsg]
    | panicked msg =>
      simp [retryLoop, attemptsUsed, hatt, attemptFailMsg]
    | timedOut =>
      cases fuel with
      | zero =>
        simp [retryLoop, attemptsUsed, hatt, attemptFailMsg]
      | succ f =>
        have hrec := retryLoop_all_fail host att h (f + 1) (idx + 1)
          (some "Command timeout") (Nat.succ_pos f)
        have hpos := attemptsUsed_pos att (f + 1) (idx + 1) (Nat.succ_pos f)
        rw [retryLoop_step_timeout host hatt, hrec,
          attemptsUsed_step_timeout hatt]
        have harith : idx + (1 + attemptsUsed att (idx + 1) (f + 1)) - 1 =
            idx + 1 + attemptsUsed att (idx + 1) (f + 1) - 1 := by omega
        rw [harith]

/-- C1: whenever a run's `HostResult` carries a remote exit code (an
attempt completed), `success` is true iff that code is `0` and
`stderr` is `None`; in particular an attempt that completes with exit
code `3` yields `success = false`, `exit_code = some 3`,
`stderr = none`. -/
theorem success_iff_exit_code_zero (host : String) (att : Nat → AttemptResult)
    (maxr : Nat) :
    (∀ c : Int, (execute_with_retries host att maxr).exit_code = some c →
      (((execute_with_retries host att maxr).success = true ↔ c = 0) ∧
        (execute_with_retries host att maxr).stderr = none)) ∧
    (∀ out : String, att 0 = .completed out 3 →
      ((execute_with_retries host att maxr).success = false ∧
        (execute_with_retries host att maxr).exit_code = some 3 ∧
        (execute_with_retries host att maxr).stderr = none)) := by
  have hf := retryLoop_fields host att (maxr + 1) 0 none
  constructor
  · intro c hc
    unfold execute_with_retries at hc ⊢
    obtain ⟨hs, he, -⟩ := hf.1 c hc
    refine ⟨?_, he⟩
    rw [hs]
    simp
  · intro out h0
    have hrun : execute_with_retries host att maxr = completedResult host out 3 := by
      unfold execute_with_retries
      simp only [retryLoop, h0]
    rw [hrun]
    refine ⟨?_, rfl, rfl⟩
    simp [completedResult]

/-- Witness for `success_iff_exit_code_zero` at a concrete executor
that completes with exit code 3 on the first attempt. -/
theorem success_iff_exit_code_zero_witness :
    (((execute_with_retries "h1" (fun _ => .completed "out" 3) 2).success = true ↔
        (3 : Int) = 0) ∧
      (execute_with_retries "h1" (fun _ => .completed "out" 3) 2).stderr = none) ∧
    ((execute_with_retries "h1" (fun _ => .completed "out" 3) 2).success = false ∧
      (execute_with_retries "h1" (fun _ => .completed "out" 3) 2).exit_code = some 3 ∧
      (execute_with_retries "h1" (fun _ => .completed "out" 3) 2).stderr = none) :=
  ⟨(success_iff_exit_code_zero "h1" (fun _ => .completed "out" 3) 2).1 3 rfl,
    (success_iff_exit_code_zero "h1" (fun _ => .completed "out" 3) 2).2 "out" rfl⟩

/-- C2: over a non-empty result list, the process exit code is `0` iff
every host succeeded and `1` iff some host failed, whatever the
failure reason. -/
theorem exit_code_contract (results : List HostResult) (_hne : results ≠ []) :
    (run_exit_code results = 0 ↔ ∀ r ∈ results, r.success = true) ∧
    (run_exit_code results = 1 ↔ ∃ r ∈ results, r.success = false) := by
  have hpos : 0 < countFailed results ↔ ∃ r ∈ results, r.success = false := by
    unfold countFailed
    rw [List.countP_pos_iff]
    simp
  have hzero : countFailed results = 0 ↔ ∀ r ∈ results, r.success = true := by
    unfold countFailed
    rw [List.countP_eq_zero]
    simp
  constructor
  · rw [← hzero]
    unfold run_exit_code
    split <;> rename_i hc <;> omega
  · rw [← hpos]
    unfold run_exit_code
    split <;> rename_i hc <;> omega

/-- Witness for `exit_code_contract` at a two-element result list with
one failed host. -/
theorem exit_code_contract_witness :
    (run_exit_code
        [failResult "a" (some "boom"), completedResult "b" "ok" 0] = 0 ↔
      ∀ r ∈ [failResult "a" (some "boom"), completedResult "b" "ok" 0],
        r.success = true) ∧
    (run_exit_code
        [failResult "a" (some "boom"), completedResult "b" "ok" 0] = 1 ↔
      ∃ r ∈ [failResult "a" (some "boom"), completedResult "b" "ok" 0],
        r.success = false) :=
  exit_code_contract [failResult "a" (some "boom"), completedResult "b" "ok" 0]
    (List.cons_ne_nil _ _)

/-- C3: when every attempt fails with a message containing none of the
retryable indicators (an authentication-style error), the supervisor
makes exactly one attempt, whatever `max_retries` is, and reports that
message. -/
theorem auth_error_single_attempt (host : String) (att : Nat → AttemptResult)
    (msgs : Nat → String) (maxr : Nat)
    (hatt : ∀ i, att i = .execError (msgs i))
    (hfatal : ∀ i, is_retryable_error (msgs i) = false) :
    attemptsUsed att 0 (maxr + 1) = 1 ∧
    execute_with_retries host att maxr = failResult host (some (msgs 0)) := by
  constructor
  · exact attemptsUsed_step_fatalErr (hatt 0) (hfatal 0) maxr
  · unfold execute_with_retries
    simp [retryLoop, hatt 0, hfatal 0]

/-- Witness for `auth_error_single_attempt` at a concrete
authentication failure message and `max_retries = 7`. -/
theorem auth_error_single_attempt_witness :
    attemptsUsed (fun _ => .execError "Authentication failed: permission denied")
        0 8 = 1 ∧
    execute_with_retries "h1"
        (fun _ => .execError "Authentication failed: permission denied") 7 =
      failResult "h1" (some "Authentication failed: permission denied") :=
  auth_error_single_attempt "h1"
    (fun _ => .execError "Authentication failed: permission denied")
    (fun _ => "Authentication failed: permission denied") 7
    (fun _ => rfl) (fun _ => rfl)

/-- C4: with fuel for at least one further attempt, the supervisor
goes past the current attempt exactly when it timed out or its error
text contains one of the retryable indicators (`connection`,
`timeout`, `network`, `handshake` after lowercasing); every other
failure ends the loop at that attempt, and the loop never makes more
than `max_retries + 1` attempts. -/
theorem retry_exactly_on_retryable (att : Nat → AttemptResult)
    (idx fuel maxr : Nat) :
    (1 < attemptsUsed att idx (fuel + 2) ↔
      (att idx = .timedOut ∨
        ∃ msg, att idx = .execError msg ∧ is_retryable_error msg = true)) ∧
    attemptsUsed att 0 (maxr + 1) ≤ maxr + 1 := by
  refine ⟨?_, attemptsUsed_le att (maxr + 1) 0⟩
  have hpos := attemptsUsed_pos att (fuel + 1) (idx + 1) (Nat.succ_pos fuel)
  cases hatt : att idx with
  | completed out code =>
    rw [attemptsUsed_step_completed hatt]
    constructor
    · omega
    · rintro (h | ⟨msg, h, -⟩) <;> exact AttemptResult.noConfusion h
  | execError msg =>
    by_cases hr : is_retryable_error msg
    · rw [attemptsUsed_step_retryErr hatt hr]
      constructor
      · intro _
        exact Or.inr ⟨msg, rfl, hr⟩
      · intro _
        omega
    · rw [attemptsUsed_step_fatalErr hatt (Bool.eq_false_iff.mpr hr)]
      constructor
      · omega
      · rintro (h | ⟨msg', h, hr'⟩)
        · exact AttemptResult.noConfusion h
        · cases h
          exact absurd hr' (by simpa using hr)
  | panicked msg =>
    rw [attemptsUsed_step_panicked hatt]
    constructor
    · omega
    · rintro (h | ⟨msg', h, -⟩) <;> exact AttemptResult.noConfusion h
  | timedOut =>
    rw [attemptsUsed_step_timeout hatt]
    constructor
    · intro _
      exact Or.inl rfl
    · intro _
      omega

/-- C5: on lists of specs that all parse, host resolution is invariant
under permutation of the input; any resolved list is sorted in the
derived hostname-then-port order with no duplicates; and the spec
list `["b.example:2222", "a.example", "a.example"]` resolves to
`[{a.example, 22}, {b.example, 2222}]`. -/
theorem host_resolution_sorted_dedup :
    (∀ l1 l2 : List String, l1.Perm l2 →
      (∀ s ∈ l1, (SshHost.from_target s none).isOk = true) →
      resolveHosts l1 = resolveHosts l2) ∧
    (∀ (l : List String) (hs : List SshHost), resolveHosts l = .ok hs →
      hs.Sorted hostLeP ∧ hs.Nodup) ∧
    resolveHosts ["b.example:2222", "a.example", "a.example"] =
      .ok [⟨"a.example", 22⟩, ⟨"b.example", 2222⟩] := by
  refine ⟨?_, ?_, rfl⟩
  · intro l1 l2 hperm hok
    have hok2 : ∀ s ∈ l2, (SshHost.from_target s none).isOk = true :=
      fun s hs => hok s (hperm.mem_iff.mpr hs)
    rw [resolveHosts_eq_of_all_ok l1 hok, resolveHosts_eq_of_all_ok l2 hok2,
      sortHosts_perm_eq (hperm.map parseHost)]
  · intro l hs h
    unfold resolveHosts at h
    cases hm : l.mapM (fun s => SshHost.from_target s none) with
    | error e => rw [hm] at h; exact Except.noConfusion h
    | ok parsed =>
      rw [hm] at h
      have hhs : hs = dedupAdjacent (sortHosts parsed) :=
        (Except.ok.inj h).symm
      subst hhs
      have hsorted := dedupAdjacent_sorted (sortHosts parsed)
        (List.sorted_insertionSort hostLeP parsed)
      exact ⟨hsorted.imp (fun hlt => hlt.1), hsorted.nodup⟩

/-- Witness for `host_resolution_sorted_dedup`: a shuffled, duplicated
spec list resolves to the same list as its permutation, and the
resolved list of the end-to-end example is sorted and duplicate
free. -/
theorem host_resolution_sorted_dedup_witness :
    resolveHosts ["b.example:2222", "a.example", "a.example"] =
      resolveHosts ["a.example", "a.example", "b.example:2222"] ∧
    ([⟨"a.example", 22⟩, ⟨"b.example", 2222⟩] : List SshHost).Sorted hostLeP ∧
    ([⟨"a.example", 22⟩, ⟨"b.example", 2222⟩] : List SshHost).Nodup :=
  ⟨host_resolution_sorted_dedup.1
      ["b.example:2222", "a.example", "a.example"]
      ["a.example", "a.example", "b.example:2222"]
      (by decide) (by decide),
    host_resolution_sorted_dedup.2.1
      ["b.example:2222", "a.example", "a.example"]
      [⟨"a.example", 22⟩, ⟨"b.example", 2222⟩]
      host_resolution_sorted_dedup.2.2⟩

theorem mk_data (s : String) : (⟨s.data⟩ : String) = s := by
  cases s; rfl

theorem splitChar_of_not_mem {c : Char} :
    ∀ l : List Char, c ∉ l → splitChar c l = [l]
  | [], _ => rfl
  | a :: rest, h => by
    have hrec := splitChar_of_not_mem rest fun hm => h (List.mem_cons_of_mem a hm)
    have hne : (a == c) = false := by
      refine beq_eq_false_iff_ne.mpr fun he => h ?_
      exact he ▸ List.mem_cons_self a rest
    simp [splitChar, hrec, hne]

/-- C6 counterexample: a spec whose port suffix is non-numeric does
not produce a parse error; `parse::<u16>().ok()` yields `None` and the
port silently falls back to the default `22`. -/
theorem nonnumeric_port_counterexample :
    SshHost.from_target "a.example:abc" none = .ok ⟨"a.example", 22⟩ ∧
    (SshHost.from_target "a.example:abc" none).isOk = true :=
  ⟨rfl, rfl⟩

/-- C6 amended: parsing errors exactly when the trimmed hostname is
empty or when the port suffix parses to `0`; a spec with no port
suffix, and equally one whose port suffix does not parse as a `u16`,
parses with the port defaulted to `22`. -/
theorem from_target_error_cases :
    (∀ (t : String) (d : Option Nat),
      strTrim ((splitOnColon t).headD "") = "" →
      SshHost.from_target t d = .error "Empty hostname") ∧
    (∀ (t p : String) (d : Option Nat),
      strTrim ((splitOnColon t).headD "") ≠ "" →
      (splitOnColon t)[1]? = some p → parseU16 p = some 0 →
      SshHost.from_target t d = .error "Invalid port: 0") ∧
    (∀ t : String, strTrim t ≠ "" → strContainsChar t ':' = false →
      SshHost.from_target t none = .ok ⟨strTrim t, 22⟩) ∧
    (∀ t p : String,
      strTrim ((splitOnColon t).headD "") ≠ "" →
      (splitOnColon t)[1]? = some p → parseU16 p = none →
      SshHost.from_target t none =
        .ok ⟨strTrim ((splitOnColon t).headD ""), 22⟩) := by
  refine ⟨?_, ?_, ?_, ?_⟩
  · intro t d hempty
    unfold SshHost.from_target
    rw [if_pos hempty]
  · intro t p d hne hp hparse
    unfold SshHost.from_target
    rw [if_neg hne, hp]
    simp [hparse]
  · intro t hne hnc
    have hmem : ':' ∉ t.data := by
      simpa [strContainsChar] using hnc
    have hsplit : splitOnColon t = [t] := by
      unfold splitOnColon
      rw [splitChar_of_not_mem t.data hmem]
      simp [mk_data]
    unfold SshHost.from_target
    rw [hsplit]
    simp only [List.headD_cons]
    rw [if_neg hne]
    rfl
  · intro t p hne hp hparse
    unfold SshHost.from_target
    rw [if_neg hne, hp]
    simp [hparse]

/-- Witness for `from_target_error_cases` at the four concrete specs
`" :5"`, `"a:0"`, `"a.example"` and `"a.example:abc"`. -/
theorem from_target_error_cases_witness :
    SshHost.from_target " :5" none = .error "Empty hostname" ∧
    SshHost.from_target "a:0" none = .error "Invalid port: 0" ∧
    SshHost.from_target "a.example" none = .ok ⟨"a.example", 22⟩ ∧
    SshHost.from_target "a.example:abc" none = .ok ⟨"a.example", 22⟩ :=
  ⟨from_target_error_cases.1 " :5" none rfl,
    from_target_error_cases.2.1 "a:0" "0" none (by decide) rfl rfl,
    from_target_error_cases.2.2.1 "a.example" (by decide) (by decide),
    from_target_error_cases.2.2.2 "a.example:abc" "abc" (by decide) rfl rfl⟩

/-- C7 counterexample: with both an explicit password and an explicit
key path supplied, credential resolution picks the key file, not the
password (the source comment says: prefer key, then agent, then
password). -/
theorem password_priority_counterexample :
    (SshAuth.new "u" (some "pw") (some "/k") true none fun _ => false).method =
      AuthMethod.KeyFile "/k" ∧
    (SshAuth.new "u" (some "pw") (some "/k") true none fun _ => false).method ≠
      AuthMethod.Password "pw" :=
  ⟨rfl, by decide⟩

/-- C7 amended: resolution picks, in priority order, an explicit key
path; else, when agent use is allowed and no password was given, the
agent; else an explicit password; else the first existing default key
file (RSA, then Ed25519, then ECDSA under the home directory); else
the agent.  There is no certificate method, and when both a password
and a key path are supplied, the key path wins. -/
theorem cred_priority (user : String) (password key_file : Option String)
    (use_agent : Bool) (home : Option String) (fe : String → Bool) :
    (∀ k, key_file = some k →
      SshAuth.new user password key_file use_agent home fe = ⟨user, .KeyFile k⟩) ∧
    (key_file = none → password = none → use_agent = true →
      SshAuth.new user password key_file use_agent home fe = ⟨user, .Agent⟩) ∧
    (∀ p, key_file = none → password = some p →
      SshAuth.new user password key_file use_agent home fe =
        ⟨user, .Password p⟩) ∧
    (key_file = none → password = none → use_agent = false →
      SshAuth.new user password key_file use_agent home fe =
        ⟨user,
          match (default_key_paths home).find? fe with
          | some p => .KeyFile p
          | none => .Agent⟩) := by
  refine ⟨?_, ?_, ?_, ?_⟩
  · intro k hk
    subst hk
    rfl
  · intro hk hp ha
    subst hk; subst hp; subst ha
    rfl
  · intro p hk hp
    subst hk; subst hp
    simp [SshAuth.new]
  · intro hk hp ha
    subst hk; subst hp; subst ha
    cases hfind : (default_key_paths home).find? fe <;>
      simp [SshAuth.new, hfind]

/-- Witness for `cred_priority` at concrete argument tuples hitting
all four branches. -/
theorem cred_priority_witness :
    SshAuth.new "u" (some "pw") (some "/k") true none (fun _ => false) =
      ⟨"u", .KeyFile "/k"⟩ ∧
    SshAuth.new "u" none none true none (fun _ => false) = ⟨"u", .Agent⟩ ∧
    SshAuth.new "u" (some "pw") none true none (fun _ => false) =
      ⟨"u", .Password "pw"⟩ ∧
    SshAuth.new "u" none none false (some "/home/u")
        (fun p => p = "/home/u/.ssh/id_ed25519") =
      ⟨"u", .KeyFile "/home/u/.ssh/id_ed25519"⟩ := by
  refine ⟨(cred_priority "u" (some "pw") (some "/k") true none
      (fun _ => false)).1 "/k" rfl,
    (cred_priority "u" none none true none (fun _ => false)).2.1 rfl rfl rfl,
    (cred_priority "u" (some "pw") none true none (fun _ => false)).2.2.1
      "pw" rfl rfl, ?_⟩
  have h := (cred_priority "u" none none false (some "/home/u")
    (fun p => p = "/home/u/.ssh/id_ed25519")).2.2.2 rfl rfl rfl
  rw [h]
  rfl

/-- C8 counterexample: the terminal `HostResult` does not carry the
count of attempts made — two runs that differ only in how many
attempts they made (1 versus 3 timed-out attempts) produce identical
`HostResult`s, so no field of the record records the attempt count. -/
theorem retries_not_recorded_counterexample :
    execute_with_retries "h1" (fun _ => .timedOut) 0 =
      execute_with_retries "h1" (fun _ => .timedOut) 2 ∧
    attemptsUsed (fun _ => .timedOut) 0 1 = 1 ∧
    attemptsUsed (fun _ => .timedOut) 0 3 = 3 :=
  ⟨rfl, rfl, rfl⟩

/-- C8 amended: when no attempt completes, the terminal `HostResult`
is the failure record whose `stderr` holds exactly the message of the
last attempt made (earlier messages are overwritten, not aggregated),
with `success = false`, `exit_code = none` and `stdout = none`; the
number of attempts made is not part of the record. -/
theorem last_failure_superseded (host : String) (att : Nat → AttemptResult)
    (maxr : Nat) (h : ∀ i out c, att i ≠ .completed out c) :
    execute_with_retries host att maxr =
      failResult host
        (some (attemptFailMsg (att (attemptsUsed att 0 (maxr + 1) - 1)))) ∧
    (execute_with_retries host att maxr).success = false ∧
    (execute_with_retries host att maxr).exit_code = none ∧
    (execute_with_retries host att maxr).stdout = none := by
  have hrun := retryLoop_all_fail host att h (maxr + 1) 0 none (Nat.succ_pos maxr)
  unfold execute_with_retries
  rw [hrun]
  exact ⟨by rw [Nat.zero_add], rfl, rfl, rfl⟩

/-- Witness for `last_failure_superseded`: a host whose three allowed
attempts all end in timeouts reports the timeout message. -/
theorem last_failure_superseded_witness :
    execute_with_retries "h1" (fun _ => .timedOut) 2 =
      failResult "h1"
        (some (attemptFailMsg
          ((fun _ => AttemptResult.timedOut)
            (attemptsUsed (fun _ => .timedOut) 0 3 - 1)))) ∧
    (execute_with_retries "h1" (fun _ => .timedOut) 2).success = false ∧
    (execute_with_retries "h1" (fun _ => .timedOut) 2).exit_code = none ∧
    (execute_with_retries "h1" (fun _ => .timedOut) 2).stdout = none :=
  last_failure_superseded "h1" (fun _ => .timedOut) 2
    (fun _ _ _ hc => AttemptResult.noConfusion hc)

/-- C10 counterexample: a failed `HostResult` can carry
`stdout_lines`: a reachable host whose command exits `3` with
multi-line output yields `success = false` together with
`stdout_lines = some ["a", "b"]`. -/
theorem failed_result_stdout_lines_counterexample :
    (execute_with_retries "h1" (fun _ => .completed "a\nb" 3) 0).success =
      false ∧
    (execute_with_retries "h1" (fun _ => .completed "a\nb" 3) 0).stdout_lines =
      some ["a", "b"] :=
  ⟨rfl, rfl⟩

/-- C10 amended: whenever a run collected output (an attempt
completed, with any exit code, so also on reported failures),
`stdout_lines` is `some` of the output's lines exactly when the
output contains a newline and `none` otherwise; when no attempt
completed (`exit_code = none`), `stdout_lines` is `none`. -/
theorem stdout_lines_iff_multiline (host : String) (att : Nat → AttemptResult)
    (maxr : Nat) :
    (∀ out, (execute_with_retries host att maxr).stdout = some out →
      (execute_with_retries host att maxr).stdout_lines =
        (if strContainsChar out '\n' then some (rustLines out) else none)) ∧
    ((execute_with_retries host att maxr).exit_code = none →
      (execute_with_retries host att maxr).stdout_lines = none) := by
  have hf := retryLoop_fields host att (maxr + 1) 0 none
  unfold execute_with_retries
  exact ⟨hf.2.1, fun hc => (hf.2.2 hc).2.1⟩

/-- Witness for `stdout_lines_iff_multiline` at a completed multi-line
attempt and at an executor that never completes. -/
theorem stdout_lines_iff_multiline_witness :
    (execute_with_retries "h1" (fun _ => .completed "a\nb" 3) 0).stdout_lines =
      (if strContainsChar "a\nb" '\n' then some (rustLines "a\nb") else none) ∧
    (execute_with_retries "h1" (fun _ => .timedOut) 1).stdout_lines = none :=
  ⟨(stdout_lines_iff_multiline "h1" (fun _ => .completed "a\nb" 3) 0).1
      "a\nb" rfl,
    (stdout_lines_iff_multiline "h1" (fun _ => .timedOut) 1).2 rfl⟩

end Krust
